import Mathlib

/-!
Verification of the geospatial preprocessing and extraction toolkit.

This file shallow-embeds the logic of the repository's scripts:

* the date-interval generator (`createDateList`, `functions/utils`; modelled
  from the specification, see its doc comment);
* the Landsat/Sentinel-2 spectral-index functions and mask functions
  (`landsat_indices_and_masks` / sentinel masks);
* the NDRS normalised-distance computation (`addNDRS`);
* the scale-factor conversion (`applyScaleFactors`);
* the R tile-mosaicking pipeline (`mosaic_rasters.R` and the
  mosaic-by-year driver script).

Images are modelled as lists of named bands; a band is a list of optional
rational pixel values, `none` standing for a masked/undefined pixel.  The
hosted execution engine evaluates pixel arithmetic server-side; per the
specification, division by zero and arithmetic on undefined operands yield
masked pixels, which the embedding realises with the `Option` monad.
-/

namespace GeoToolkit

/-! ## Calendar dates -/

/-- Calendar date (proleptic Gregorian), as used by the engine's
`ee.Date` objects at day granularity. -/
structure Date where
  year : Int
  month : Int
  day : Int
deriving DecidableEq, Repr

/-- Gregorian leap-year test. -/
def isLeap (y : Int) : Bool :=
  (y % 4 == 0 && y % 100 != 0) || y % 400 == 0

/-- Number of days in a month of a given year. -/
def daysInMonth (y : Int) (m : Int) : Int :=
  if m = 2 then (if isLeap y then 29 else 28)
  else if m = 4 ∨ m = 6 ∨ m = 9 ∨ m = 11 then 30
  else 31

/-- Validity of a calendar date. -/
def validDate (d : Date) : Prop :=
  1 ≤ d.month ∧ d.month ≤ 12 ∧ 1 ≤ d.day ∧ d.day ≤ daysInMonth d.year d.month

instance (d : Date) : Decidable (validDate d) := by
  unfold validDate; infer_instance

/-- Strict chronological order on dates (lexicographic on year, month, day). -/
def Date.lt (a b : Date) : Prop :=
  a.year < b.year ∨
    (a.year = b.year ∧ (a.month < b.month ∨ (a.month = b.month ∧ a.day < b.day)))

/-- Chronological order on dates. -/
def Date.le (a b : Date) : Prop := Date.lt a b ∨ a = b

instance (a b : Date) : Decidable (Date.lt a b) := by
  unfold Date.lt; infer_instance

instance (a b : Date) : Decidable (Date.le a b) := by
  unfold Date.le; infer_instance

theorem Date.lt_irrefl (a : Date) : ¬ Date.lt a a := by
  unfold Date.lt; omega

theorem Date.lt_trans {a b c : Date} (h1 : Date.lt a b) (h2 : Date.lt b c) :
    Date.lt a c := by
  unfold Date.lt at *; omega

theorem Date.lt_le_trans {a b c : Date} (h1 : Date.lt a b) (h2 : Date.le b c) :
    Date.lt a c := by
  rcases h2 with h2 | rfl
  · exact Date.lt_trans h1 h2
  · exact h1

/-! ## Date-interval generator

The repository's date-interval generator is `createDateList` in the Earth
Engine module `functions/utils`, which the repository scripts `require` but
whose source module is not part of this tree; only its callers and its
documentation are.  It is therefore modelled from the specification. -/

/-- Time unit accepted by the date-interval generator. -/
inductive TUnit where
  | days
  | weeks
  | months
  | years
deriving DecidableEq, Repr

/-- Successor of a calendar date. -/
def nextDay (d : Date) : Date :=
  if d.day < daysInMonth d.year d.month then ⟨d.year, d.month, d.day + 1⟩
  else if d.month < 12 then ⟨d.year, d.month + 1, 1⟩
  else ⟨d.year + 1, 1, 1⟩

/-- Advance a date by `n` calendar days. -/
def advanceDays (d : Date) : Nat → Date
  | 0 => d
  | n + 1 => nextDay (advanceDays d n)

/-- Advance a date by `n` calendar months, clamping the day of month to the
length of the target month (calendar-aware month arithmetic). -/
def advanceMonths (d : Date) (n : Nat) : Date :=
  let t : Int := d.year * 12 + (d.month - 1) + n
  let y := t / 12
  let m := t % 12 + 1
  ⟨y, m, min d.day (daysInMonth y m)⟩

/-- Advance a date by `n` calendar years, clamping Feb 29 to Feb 28 in
non-leap target years. -/
def advanceYears (d : Date) (n : Nat) : Date :=
  ⟨d.year + n, d.month, min d.day (daysInMonth (d.year + n) d.month)⟩

/-- Advance a date by `n` units. -/
def advance (d : Date) (n : Nat) : TUnit → Date
  | .days => advanceDays d n
  | .weeks => advanceDays d (7 * n)
  | .months => advanceMonths d n
  | .years => advanceYears d n

/-- Crude upper bound on how many steps of one unit fit between two dates;
used only to bound the search for the last interval start. -/
def dateListBound (ds de : Date) (unit : TUnit) : Nat :=
  match unit with
  | .years => (de.year - ds.year).toNat + 1
  | .months => ((de.year - ds.year).toNat + 1) * 12 + 12
  | .weeks => ((de.year - ds.year).toNat + 1) * 53 + 53
  | .days => ((de.year - ds.year).toNat + 1) * 366 + 366

/-- Modelled from the spec: `createDateList` lives in the Earth Engine module
`functions/utils`, which is not included in this tree.  Per the
specification (§4.1): it produces the timestamps `start + k·step` for
`k = 0..N`, inclusive of any timestamp ≤ `end`, with calendar-aware
month/year arithmetic, and fails with an `InvalidRangeError` when
`end < start` or `step ≤ 0`. -/
def createDateList (ds de : Date) (step : Int) (unit : TUnit) :
    Except String (List Date) :=
  if Date.lt de ds ∨ step ≤ 0 then Except.error "InvalidRangeError"
  else
    let s := step.toNat
    let N := Nat.findGreatest
      (fun k => Date.le (advance ds (k * s) unit) de) (dateListBound ds de unit)
    Except.ok ((List.range (N + 1)).map (fun k => advance ds (k * s) unit))

theorem daysInMonth_pos (y m : Int) : 1 ≤ daysInMonth y m := by
  unfold daysInMonth
  split
  · split <;> norm_num
  · split <;> norm_num

theorem lt_nextDay (d : Date) : Date.lt d (nextDay d) := by
  unfold nextDay Date.lt
  split
  · dsimp only; omega
  · split
    · dsimp only; omega
    · dsimp only; omega

theorem advanceDays_add (d : Date) (a k : Nat) :
    advanceDays d (a + k) = advanceDays (advanceDays d a) k := by
  induction k with
  | zero => rfl
  | succ k ih => rw [← Nat.add_assoc, advanceDays, advanceDays, ih]

theorem lt_advanceDays (d : Date) {n : Nat} (hn : 0 < n) :
    Date.lt d (advanceDays d n) := by
  induction n with
  | zero => omega
  | succ n ih =>
    rcases Nat.eq_zero_or_pos n with rfl | hpos
    · exact lt_nextDay d
    · exact Date.lt_trans (ih hpos) (lt_nextDay (advanceDays d n))

theorem advanceDays_strictMono (d : Date) {a b : Nat} (h : a < b) :
    Date.lt (advanceDays d a) (advanceDays d b) := by
  have hb : b = a + (b - a) := by omega
  rw [hb, advanceDays_add]
  exact lt_advanceDays (advanceDays d a) (by omega)

theorem advanceMonths_strictMono (d : Date) {a b : Nat} (h : a < b) :
    Date.lt (advanceMonths d a) (advanceMonths d b) := by
  unfold advanceMonths Date.lt
  dsimp only
  omega

theorem advanceYears_strictMono (d : Date) {a b : Nat} (h : a < b) :
    Date.lt (advanceYears d a) (advanceYears d b) := by
  unfold advanceYears Date.lt
  dsimp only
  omega

theorem advance_strictMono (d : Date) (u : TUnit) {a b : Nat} (h : a < b) :
    Date.lt (advance d a u) (advance d b u) := by
  cases u with
  | days => exact advanceDays_strictMono d h
  | weeks => exact advanceDays_strictMono d (by omega)
  | months => exact advanceMonths_strictMono d h
  | years => exact advanceYears_strictMono d h

theorem advance_zero (d : Date) (u : TUnit) (hv : validDate d) :
    advance d 0 u = d := by
  obtain ⟨h1, h2, h3, h4⟩ := hv
  cases u with
  | days => rfl
  | weeks => rfl
  | months =>
    unfold advance advanceMonths
    dsimp only
    have hy : (d.year * 12 + (d.month - 1) + ((0 : Nat) : Int)) / 12 = d.year := by omega
    have hm : (d.year * 12 + (d.month - 1) + ((0 : Nat) : Int)) % 12 + 1 = d.month := by omega
    rw [hy, hm, min_eq_left h4]
  | years =>
    unfold advance advanceYears
    dsimp only
    have hy : d.year + ((0 : Nat) : Int) = d.year := by omega
    rw [hy, min_eq_left h4]

theorem not_lt_of_le {a b : Date} (h : Date.le a b) : ¬ Date.lt b a := by
  intro hlt
  rcases h with h | rfl
  · exact Date.lt_irrefl a (Date.lt_trans h hlt)
  · exact Date.lt_irrefl a hlt

/-- C1: for every `(start, end, step, unit)` with `step > 0` and `end ≥ start`,
the date-interval generator returns a non-empty, strictly increasing sequence
whose first element is `start`, whose `k`-th element is `start + k·step` in the
given unit, and all of whose elements (in particular the last) are ≤ `end`;
and `createDateList('2020-06-01','2024-06-01', 1, 'years')` yields exactly the
five dates 2020-06-01 through 2024-06-01. -/
theorem createDateList_spec :
    (∀ (ds de : Date) (step : Int) (unit : TUnit),
      validDate ds → 0 < step → Date.le ds de →
      ∃ l, createDateList ds de step unit = Except.ok l ∧
        l ≠ [] ∧
        l.head? = some ds ∧
        (∀ k, k < l.length → l.get? k = some (advance ds (k * step.toNat) unit)) ∧
        List.Pairwise Date.lt l ∧
        (∀ x ∈ l, Date.le x de)) ∧
    createDateList ⟨2020, 6, 1⟩ ⟨2024, 6, 1⟩ 1 TUnit.years
      = Except.ok [⟨2020, 6, 1⟩, ⟨2021, 6, 1⟩, ⟨2022, 6, 1⟩, ⟨2023, 6, 1⟩,
          ⟨2024, 6, 1⟩] := by
  constructor
  · intro ds de step unit hv hs hle
    have hnot : ¬ (Date.lt de ds ∨ step ≤ 0) := by
      rintro (h | h)
      · exact not_lt_of_le hle h
      · omega
    rw [createDateList, if_neg hnot]
    have hstoNat : 0 < step.toNat := by omega
    set s := step.toNat with hsdef
    set N := Nat.findGreatest
      (fun k => Date.le (advance ds (k * s) unit) de) (dateListBound ds de unit) with hN
    have hf0 : advance ds (0 * s) unit = ds := by
      rw [Nat.zero_mul, advance_zero ds unit hv]
    have hPN : Date.le (advance ds (N * s) unit) de := by
      rw [hN]
      exact Nat.findGreatest_spec (P := fun k => Date.le (advance ds (k * s) unit) de)
        (m := 0) (Nat.zero_le _)
        (by show Date.le (advance ds (0 * s) unit) de; rw [hf0]; exact hle)
    refine ⟨_, rfl, ?_, ?_, ?_, ?_, ?_⟩
    · have : (N + 1) ≠ 0 := Nat.succ_ne_zero N
      simp [List.range_succ_eq_map]
    · rw [List.range_succ_eq_map]
      simp [advance_zero ds unit hv]
    · intro k hk
      rw [List.length_map, List.length_range] at hk
      rw [List.get?_map, List.get?_range hk]
      rfl
    · refine List.Pairwise.map _ ?_ (List.pairwise_lt_range (N + 1))
      intro a b hab
      exact advance_strictMono ds unit ((Nat.mul_lt_mul_right hstoNat).mpr hab)
    · intro x hx
      rw [List.mem_map] at hx
      obtain ⟨k, hk, rfl⟩ := hx
      rw [List.mem_range] at hk
      rcases Nat.lt_or_ge k N with hlt | hge
      · have := advance_strictMono ds unit ((Nat.mul_lt_mul_right hstoNat).mpr hlt)
        exact Or.inl (Date.lt_le_trans this hPN)
      · have hkN : k = N := by omega
        rw [hkN]; exact hPN
  · rfl

/-- Witness for C1 at the concrete scenario inputs. -/
theorem createDateList_spec_witness :
    (validDate (⟨2020, 6, 1⟩ : Date) ∧ (0 : Int) < 1 ∧
      Date.le ⟨2020, 6, 1⟩ ⟨2024, 6, 1⟩) ∧
    (∃ l, createDateList ⟨2020, 6, 1⟩ ⟨2024, 6, 1⟩ 1 TUnit.years
        = Except.ok l ∧ l ≠ [] ∧ l.head? = some ⟨2020, 6, 1⟩ ∧
        (∀ k, k < l.length →
          l.get? k = some (advance ⟨2020, 6, 1⟩ (k * (1 : Int).toNat) TUnit.years)) ∧
        List.Pairwise Date.lt l ∧ (∀ x ∈ l, Date.le x ⟨2024, 6, 1⟩)) :=
  ⟨⟨by decide, by decide, by decide⟩,
    createDateList_spec.1 ⟨2020, 6, 1⟩ ⟨2024, 6, 1⟩ 1 TUnit.years
      (by decide) (by decide) (by decide)⟩

/-- C5: for every input with `end < start` or `step ≤ 0`, the date-interval
generator fails with an `InvalidRangeError` rather than returning a sequence. -/
theorem createDateList_invalid_range (ds de : Date) (step : Int) (unit : TUnit)
    (h : Date.lt de ds ∨ step ≤ 0) :
    createDateList ds de step unit = Except.error "InvalidRangeError" := by
  rw [createDateList, if_pos h]

/-- Witness for C5: a reversed range fails with `InvalidRangeError`. -/
theorem createDateList_invalid_range_witness :
    (Date.lt ⟨2024, 6, 1⟩ ⟨2020, 6, 1⟩ ∨ (1 : Int) ≤ 0) ∨
    createDateList ⟨2024, 6, 1⟩ ⟨2020, 6, 1⟩ 1 TUnit.years
      = Except.error "InvalidRangeError" :=
  Or.inr (createDateList_invalid_range ⟨2024, 6, 1⟩ ⟨2020, 6, 1⟩ 1 TUnit.years
    (Or.inl (by decide)))

/-! ## Images and bands

An image is a list of named bands over a common pixel grid, together with
scalar metadata properties.  A pixel is `none` when it is masked out /
undefined.  Per the specification, division by zero and arithmetic with an
undefined operand produce an undefined pixel, never a crash or a NaN. -/

/-- Pixel grid of a single band; `none` is a masked/undefined pixel. -/
abbrev Grid := List (Option ℚ)

/-- Named single band of an image. -/
structure Band where
  name : String
  pix : Grid
deriving DecidableEq, Repr

/-- Multiband image with scalar metadata properties. -/
structure Image where
  bands : List Band
  props : List (String × Int)
deriving DecidableEq, Repr

/-- Engine band selection by name (`image.select(name)`). -/
def selectBand (image : Image) (n : String) : Band :=
  (image.bands.find? (fun b => b.name == n)).getD ⟨n, []⟩

/-- Division as evaluated by the engine: a zero denominator yields a
masked pixel. -/
def safeDiv (a b : ℚ) : Option ℚ := if b = 0 then none else some (a / b)

/-- Map a unary pixel function over a grid, propagating undefined pixels. -/
def lift1 (f : ℚ → Option ℚ) : Grid → Grid :=
  List.map (fun v => v.bind f)

/-- Combine two grids with a binary pixel function; a pixel is defined only
when both operands are. -/
def lift2 (f : ℚ → ℚ → Option ℚ) : Grid → Grid → Grid :=
  List.zipWith (fun a b =>
    match a, b with
    | some x, some y => f x y
    | _, _ => none)

/-- Combine three grids with a ternary pixel function. -/
def lift3 (f : ℚ → ℚ → ℚ → Option ℚ) : Grid → Grid → Grid → Grid
  | a :: as, b :: bs, c :: cs =>
    (match a, b, c with
     | some x, some y, some z => f x y z
     | _, _, _ => none) :: lift3 f as bs cs
  | _, _, _ => []

/-- Engine `clamp(lo, hi)` on a single value. -/
def clampQ (lo hi v : ℚ) : ℚ := min hi (max lo v)

/-- Engine `clamp(lo, hi)` over a grid. -/
def clampGrid (lo hi : ℚ) : Grid → Grid :=
  lift1 (fun v => some (clampQ lo hi v))

/-- Engine `updateMask`: a pixel survives only where the mask grid holds a
defined, non-zero value; otherwise it becomes undefined. -/
def applyMask : Grid → Grid → Grid :=
  List.zipWith (fun v mv =>
    match mv with
    | some w => if w = 0 then none else v
    | none => none)

/-- Apply `updateMask` to every band of an image. -/
def updateMask (image : Image) (m : Grid) : Image :=
  ⟨image.bands.map (fun b => ⟨b.name, applyMask b.pix m⟩), image.props⟩

/-- Engine `addBands`: append bands to an image. -/
def addBands (image : Image) (nbs : List Band) : Image :=
  ⟨image.bands ++ nbs, image.props⟩

/-- Engine `divide(c)` applied to every band of an image. -/
def divideImage (image : Image) (c : ℚ) : Image :=
  ⟨image.bands.map (fun b => ⟨b.name, b.pix.map (fun o => o.map (fun v => v / c))⟩),
   image.props⟩

/-! ## Landsat spectral-index functions (`landsat_indices_and_masks`) -/

/-- NDVI band computed by `addNDVI`: `(NIR - Red) / (NIR + Red)` from
`SR_B4` and `SR_B3`. -/
def ndviBand (image : Image) : Band :=
  ⟨"NDVI", lift2 (fun nir red => safeDiv (nir - red) (nir + red))
    (selectBand image "SR_B4").pix (selectBand image "SR_B3").pix⟩

/-- Adds the NDVI band to an image. -/
def addNDVI (image : Image) : Image := addBands image [ndviBand image]

/-- EVI band computed by `addEVI`:
`2.5 * ((NIR - RED) / (NIR + 6*RED - 7.5*BLUE + 1))`, clamped to `[-2, 2]`. -/
def eviBand (image : Image) : Band :=
  ⟨"EVI", clampGrid (-2) 2 (lift3
      (fun nir red blue =>
        (safeDiv (nir - red) (nir + 6 * red - 7.5 * blue + 1)).map
          (fun q => 2.5 * q))
      (selectBand image "SR_B4").pix (selectBand image "SR_B3").pix
      (selectBand image "SR_B1").pix)⟩

/-- Adds the clamped EVI band to an image. -/
def addEVI (image : Image) : Image := addBands image [eviBand image]

/-- DSWI band computed by `addDSWI`: `(NIR + Green) / (SWIR + Red)`,
clamped to `[0, 3]`. -/
def dswiBand (image : Image) : Band :=
  ⟨"DSWI", clampGrid 0 3 (lift2 safeDiv
      (lift2 (fun nir green => some (nir + green))
        (selectBand image "SR_B4").pix (selectBand image "SR_B2").pix)
      (lift2 (fun swir red => some (swir + red))
        (selectBand image "SR_B5").pix (selectBand image "SR_B3").pix))⟩

/-- Adds the clamped DSWI band to an image. -/
def addDSWI (image : Image) : Image := addBands image [dswiBand image]

/-- RVI band computed by `addRVI`: `NIR / Red`, clamped to `[0, 10]`. -/
def rviBand (image : Image) : Band :=
  ⟨"RVI", clampGrid 0 10 (lift2 safeDiv
      (selectBand image "SR_B4").pix (selectBand image "SR_B3").pix)⟩

/-- Adds the clamped RVI band to an image. -/
def addRVI (image : Image) : Image := addBands image [rviBand image]

/-- Per-pixel value of the DRS band computed by `addDRS`:
`sqrt(RED*RED + SWIR*SWIR)`, with no clamp.  The square root is irrational
in general, so this pixel function is stated over the reals. -/
noncomputable def drsPixel (red swir : ℚ) : ℝ :=
  Real.sqrt ((red : ℝ) * red + (swir : ℝ) * swir)

/-! ## Mask functions -/

/-- Bitwise AND of a quality-flag pixel value against a bit mask
(quality bands carry non-negative integer codes). -/
def qaBits (v : ℚ) (m : Nat) : Nat := v.num.toNat &&& m

/-- Landsat `mask_cloud_snow`: QA_PIXEL bits 3 (cloud), 4 (cloud shadow) and
5 (snow) must all be clear. -/
def mask_cloud_snow (image : Image) : Image :=
  let qa := selectBand image "QA_PIXEL"
  let mask := qa.pix.map (fun o => o.map (fun v =>
    if qaBits v 8 = 0 ∧ qaBits v 16 = 0 ∧ qaBits v 32 = 0 then (1 : ℚ) else 0))
  updateMask image mask

/-- Landsat `mask_cloud`: QA_PIXEL bits 3 (cloud) and 4 (cloud shadow) must
be clear. -/
def mask_cloud (image : Image) : Image :=
  let qa := selectBand image "QA_PIXEL"
  let mask := qa.pix.map (fun o => o.map (fun v =>
    if qaBits v 8 = 0 ∧ qaBits v 16 = 0 then (1 : ℚ) else 0))
  updateMask image mask

/-- Sentinel-2 `maskS2clouds`: QA60 bits 10 (cloud) and 11 (cirrus) must be
clear; the masked image is then divided by 10000 (scale-factor adjustment)
and the source properties are carried over. -/
def maskS2clouds (image : Image) : Image :=
  let qa := selectBand image "QA60"
  let mask := qa.pix.map (fun o => o.map (fun v =>
    if qaBits v 1024 = 0 ∧ qaBits v 2048 = 0 then (1 : ℚ) else 0))
  divideImage (updateMask image mask) 10000

/-- Sentinel-2 `maskS2snow`: keep pixels whose SCL classification differs
from 11 (snow). -/
def maskS2snow (image : Image) : Image :=
  let scl := selectBand image "SCL"
  let mask := scl.pix.map (fun o => o.map (fun v =>
    if v ≠ 11 then (1 : ℚ) else 0))
  updateMask image mask

/-- `maskByLandcover`: keep pixels whose land-cover classification (an
external annual product, passed as a grid) equals class 210 (coniferous). -/
def maskByLandcover (lcImage : Grid) (image : Image) : Image :=
  updateMask image (lcImage.map (fun o => o.map (fun v =>
    if v = 210 then (1 : ℚ) else 0)))

/-- `maskByForestAge`: keep pixels whose forest age (external 2019 forest-age
product, passed as a grid) exceeds the threshold of 60 years. -/
def maskByForestAge (age : Grid) (image : Image) : Image :=
  updateMask image (age.map (fun o => o.map (fun v =>
    if 60 < v then (1 : ℚ) else 0)))

/-! ## Scale factors (`applyScaleFactors`) -/

/-- Full match of a band name against the regex `SR_B.` used by
`image.select('SR_B.')`: the literal prefix `SR_B` followed by exactly one
further character. -/
def matchesSRB (n : String) : Bool :=
  match n.toList with
  | 'S' :: 'R' :: '_' :: 'B' :: _ :: [] => true
  | _ => false

/-- Optical surface-reflectance scaling: `v * 0.0000275 + (-0.2)`. -/
def scaleOptical (b : Band) : Band :=
  ⟨b.name, b.pix.map (fun o => o.map (fun v => v * 0.0000275 + (-0.2)))⟩

/-- Thermal scaling for `ST_B6`: `v * 0.00341802 + 149.0`. -/
def scaleThermal (b : Band) : Band :=
  ⟨b.name, b.pix.map (fun o => o.map (fun v => v * 0.00341802 + 149.0))⟩

/-- Engine `addBands(newBands, null, true)`: overwrite bands with matching
names in place, appending any genuinely new band. -/
def addBandsOverwrite (image : Image) (nbs : List Band) : Image :=
  ⟨image.bands.map (fun b => (nbs.find? (fun nb => nb.name == b.name)).getD b)
     ++ nbs.filter (fun nb => (image.bands.find? (fun b => b.name == nb.name)).isNone),
   image.props⟩

/-- `applyScaleFactors`: rescale the optical `SR_B.` bands and the thermal
`ST_B6` band, replacing them in place; all other bands (in particular
`QA_PIXEL`) are left untouched. -/
def applyScaleFactors (image : Image) : Image :=
  let opticalBands := (image.bands.filter (fun b => matchesSRB b.name)).map scaleOptical
  let thermalBand := scaleThermal (selectBand image "ST_B6")
  addBandsOverwrite (addBandsOverwrite image opticalBands) [thermalBand]

/-! ## NDRS (`addNDRS`)

The annual forest land-cover classification is an external collaborator
(`functions/annual_forest_land_cover`); it is passed to the embedding as a
function from a queried date range to the classification grid. -/

/-- Start date of the land-cover query made by `addNDRS` for an image of the
given year: years from 2019 on use the 2019 classification. -/
def ndrsStartDate (year : Int) : Date :=
  if 2019 ≤ year then ⟨2019, 1, 1⟩ else ⟨year, 1, 1⟩

/-- End date of the land-cover query made by `addNDRS` for an image of the
given year. -/
def ndrsEndDate (year : Int) : Date :=
  if 2019 ≤ year then ⟨2019, 12, 31⟩ else ⟨year, 12, 31⟩

/-- Minimum over the defined pixels of a grid (`ee.Reducer.minMax`);
`none` when the grid has no defined pixel. -/
def gridMin : Grid → Option ℚ
  | [] => none
  | none :: rest => gridMin rest
  | some v :: rest =>
    match gridMin rest with
    | none => some v
    | some w => some (min v w)

/-- Maximum over the defined pixels of a grid; `none` when the grid has no
defined pixel. -/
def gridMax : Grid → Option ℚ
  | [] => none
  | none :: rest => gridMax rest
  | some v :: rest =>
    match gridMax rest with
    | none => some v
    | some w => some (max v w)

/-- Year property of an image (`ee.Number.parse(image.get('year'))`). -/
def imgYear (image : Image) : Int := (image.props.lookup "year").getD 0

/-- Engine `remap(forestTypes, [1,...,1], 0)`: forest classes map to 1,
everything else to 0, masked pixels stay masked. -/
def remapForest (forestTypes : List ℚ) (lc : Grid) : Grid :=
  lc.map (fun o => o.map (fun v => if v ∈ forestTypes then (1 : ℚ) else 0))

/-- Band-name suffix chosen by `addNDRS` from the forest-type subset. -/
def ndrsSuffix (forestTypes : List ℚ) : String :=
  if forestTypes.length = 1 then
    (if forestTypes.head? = some 210 then "_coni"
     else if forestTypes.head? = some 220 then "_deci"
     else "_mixed")
  else "_mixed"

/-- `addNDRS`: query the annual land-cover classification for the image's
year (falling back to 2019 for later years), mask the DRS band to forest
pixels, reduce it to its min and max, and append the normalised band
`(clamp(DRS, min, max) - min) / (max - min)`.  When the reduction is
undefined (no forest pixel), the engine's arithmetic on the undefined
min/max leaves every output pixel undefined. -/
def addNDRS (image : Image) (forestTypes : List ℚ)
    (lcProduct : Date → Date → Grid) : Image :=
  let year := imgYear image
  let landcoverImage := lcProduct (ndrsStartDate year) (ndrsEndDate year)
  let forestMask := remapForest forestTypes landcoverImage
  let DRS := selectBand image "DRS"
  let maskedDRS := applyMask DRS.pix forestMask
  let DRSmin := gridMin maskedDRS
  let DRSmax := gridMax maskedDRS
  let ndrsPix : Grid := DRS.pix.map (fun o =>
    match DRSmin, DRSmax, o with
    | some lo, some hi, some v => safeDiv (clampQ lo hi v - lo) (hi - lo)
    | _, _, _ => none)
  addBands image [⟨"NDRS" ++ ndrsSuffix forestTypes, ndrsPix⟩]

/-! ## Tile mosaicking (`mosaic_rasters.R` and the mosaic-by-year scripts)

The terra raster library is an external collaborator; the embedding records
its reads and the final write as an action trace, which suffices for the
error-handling contract (nothing is read or written when the input list is
empty). -/

/-- Raster-library actions performed by a mosaic call. -/
inductive RAction where
  | readRaster : String → RAction
  | writeRaster : String → RAction
deriving DecidableEq, Repr

/-- `mosaic_rasters_in_list`: stops with an error when the file list is
empty; otherwise reads every tile and writes the mosaic. -/
def mosaic_rasters_in_list (raster_files : List String)
    (export_filename : String) : Except String (List RAction) :=
  if raster_files.isEmpty then
    Except.error "No raster files provided for mosaicking."
  else
    Except.ok (raster_files.map RAction.readRaster ++
      [RAction.writeRaster export_filename])

/-- Directory listing filtered by the pattern `\.tif$`. -/
def tifOnly (entries : List String) : List String :=
  entries.filter (fun f => f.endsWith ".tif")

/-- `mosaic_rasters`: list the `.tif` files of a directory, stop with an
error when none is found, otherwise read every tile and write the mosaic. -/
def mosaic_rasters (dir_entries : List String)
    (export_filename : String) : Except String (List RAction) :=
  let fl := tifOnly dir_entries
  if fl.isEmpty then
    Except.error "No .tif files found in the specified directory."
  else
    Except.ok (fl.map RAction.readRaster ++
      [RAction.writeRaster export_filename])

/-! ## Mosaic-by-year grouping

R semantics embedded here: `sub(".*_(\d{4})-.*", "\1", name)` returns the
last `_YYYY-` token of `name`, or `name` unchanged when the pattern does not
match; `grepl(paste0("_", year, "-"), name)` matches the key against the
name as a regular expression, in which a `.` inside the key (as happens
when the key is a whole unmatched filename) matches any character.
Filenames are assumed to contain no regex metacharacters other than `.`,
which holds for the `.tif` tile names the scripts process. -/

/-- Reads the year token `_dddd-` starting at the head of a character
list, if present. -/
def tokenHere : List Char → Option (List Char)
  | u :: a :: b :: c :: d :: e :: _ =>
    if u = '_' ∧ a.isDigit ∧ b.isDigit ∧ c.isDigit ∧ d.isDigit ∧ e = '-' then
      some [a, b, c, d]
    else none
  | _ => none

/-- Last year token of a filename, scanning all positions; `none` when the
name contains no `_dddd-` substring (the greedy `.*_` of the R pattern
selects the last occurrence). -/
def lastYearToken (cs : List Char) : Option (List Char) :=
  (List.range cs.length).foldl
    (fun acc i =>
      match tokenHere (cs.drop i) with
      | some t => some t
      | none => acc) none

/-- Grouping key of a filename: its last year token, or — reproducing R's
`sub`, which returns its input unchanged on no match — the whole name. -/
def extractYearKey (name : String) : List Char :=
  match lastYearToken name.toList with
  | some t => t
  | none => name.toList

/-- Match of a pattern against the head of a string, `.` in the pattern
matching any character. -/
def wcMatch : List Char → List Char → Bool
  | [], _ => true
  | _ :: _, [] => false
  | p :: ps, s :: ss => (p == '.' || p == s) && wcMatch ps ss

/-- Containment of a wildcard pattern anywhere in a string (`grepl`). -/
def wcContains (p : List Char) : List Char → Bool
  | [] => wcMatch p []
  | s :: ss => wcMatch p (s :: ss) || wcContains p ss

/-- First-occurrence deduplication, as R's `unique`. -/
def uniqueAux (seen : List (List Char)) : List (List Char) → List (List Char)
  | [] => []
  | k :: rest =>
    if k ∈ seen then uniqueAux seen rest
    else k :: uniqueAux (k :: seen) rest

/-- Distinct grouping keys of a file list, in first-occurrence order
(`unique(sub(".*_(\d{4})-.*", "\1", basename(raster_files)))`). -/
def yearKeysOf (files : List String) : List (List Char) :=
  uniqueAux [] (files.map extractYearKey)

/-- Files of a year group
(`raster_files[grepl(paste0("_", year, "-"), basename(raster_files))]`). -/
def yearGroup (files : List String) (key : List Char) : List String :=
  files.filter (fun f => wcContains ('_' :: (key ++ ['-'])) f.toList)

/-- Mosaic-by-year driver loop: for each distinct key, skip the key when its
group is empty, otherwise mosaic the group into
`<pre><key>.tif`.  Returns the produced mosaics with their input groups. -/
def mosaicsProduced (files : List String) (pre : String) :
    List (String × List String) :=
  (yearKeysOf files).filterMap (fun y =>
    let g := yearGroup files y
    if g.isEmpty then none
    else some (pre ++ String.mk y ++ ".tif", g))

/-! ## Helper lemmas on grids and bands -/

theorem mem_clampGrid {lo hi : ℚ} (hlohi : lo ≤ hi) {g : Grid} {v : ℚ}
    (h : some v ∈ clampGrid lo hi g) : lo ≤ v ∧ v ≤ hi := by
  unfold clampGrid lift1 at h
  rw [List.mem_map] at h
  obtain ⟨o, ho, heq⟩ := h
  cases o with
  | none => simp at heq
  | some x =>
    simp only [Option.some_bind] at heq
    rw [Option.some_inj] at heq
    subst heq
    unfold clampQ
    constructor
    · exact le_min hlohi (le_max_left lo x)
    · exact min_le_left hi _

theorem gridMin_eq_none {g : Grid} (h : ∀ o ∈ g, o = none) :
    gridMin g = none := by
  induction g with
  | nil => rfl
  | cons a t ih =>
    have ha : a = none := h a (List.mem_cons_self a t)
    subst ha
    rw [gridMin]
    exact ih (fun o ho => h o (List.mem_cons_of_mem _ ho))

theorem applyMask_all_none {p m : Grid}
    (h : ∀ mv ∈ m, ∀ w, mv = some w → w = 0) :
    ∀ x ∈ applyMask p m, x = none := by
  induction p generalizing m with
  | nil => intro x hx; simp [applyMask] at hx
  | cons a t ih =>
    cases m with
    | nil => intro x hx; simp [applyMask] at hx
    | cons mv m =>
      intro x hx
      rw [applyMask, List.zipWith_cons_cons] at hx
      rcases List.mem_cons.mp hx with rfl | hx2
      · cases mv with
        | none => rfl
        | some w =>
          have hw : w = 0 := h (some w) (List.mem_cons_self _ _) w rfl
          simp [hw]
      · exact ih (fun mv2 hmv2 => h mv2 (List.mem_cons_of_mem _ hmv2)) x hx2

theorem selectBand_addBands_ne (image : Image) (nb : Band) (n : String)
    (hne : nb.name ≠ n) :
    selectBand (addBands image [nb]) n = selectBand image n := by
  unfold selectBand addBands
  dsimp only
  rw [List.find?_append]
  cases hf : image.bands.find? (fun b => b.name == n) with
  | some b => simp
  | none =>
    have hb : (nb.name == n) = false := beq_eq_false_iff_ne.mpr hne
    simp [List.find?, hb]

/-! ## C2 -/

/-- C2: for every well-formed input, the EVI band only holds values in
`[-2, 2]`, the DSWI band only values in `[0, 3]`, and the RVI band only
values in `[0, 10]`; the unclamped indices (NDVI, DRS) are unbounded: their
output exceeds any prescribed bound for suitable band inputs. -/
theorem index_clamp_policy :
    (∀ (image : Image) (v : ℚ), some v ∈ (eviBand image).pix → -2 ≤ v ∧ v ≤ 2) ∧
    (∀ (image : Image) (v : ℚ), some v ∈ (dswiBand image).pix → 0 ≤ v ∧ v ≤ 3) ∧
    (∀ (image : Image) (v : ℚ), some v ∈ (rviBand image).pix → 0 ≤ v ∧ v ≤ 10) ∧
    (∀ B : ℚ, ∃ (image : Image) (v : ℚ), some v ∈ (ndviBand image).pix ∧ B < v) ∧
    (∀ B : ℝ, ∃ red swir : ℚ, B < drsPixel red swir) := by
  refine ⟨?_, ?_, ?_, ?_, ?_⟩
  · intro image v h
    exact mem_clampGrid (by norm_num) h
  · intro image v h
    exact mem_clampGrid (by norm_num) h
  · intro image v h
    exact mem_clampGrid (by norm_num) h
  · intro B
    set c : ℚ := max B 0 + 1 with hc
    refine ⟨⟨[⟨"SR_B4", [some ((c + 1) / 2)]⟩, ⟨"SR_B3", [some ((1 - c) / 2)]⟩], []⟩,
      c, ?_, ?_⟩
    · have hsum : (c + 1) / 2 + (1 - c) / 2 = (1 : ℚ) := by ring
      have hdiff : (c + 1) / 2 - (1 - c) / 2 = c := by ring
      show some c ∈ lift2 (fun nir red => safeDiv (nir - red) (nir + red))
        (selectBand _ "SR_B4").pix (selectBand _ "SR_B3").pix
      have h4 : (selectBand
          (⟨[⟨"SR_B4", [some ((c + 1) / 2)]⟩, ⟨"SR_B3", [some ((1 - c) / 2)]⟩], []⟩ : Image)
          "SR_B4").pix = [some ((c + 1) / 2)] := rfl
      have h3 : (selectBand
          (⟨[⟨"SR_B4", [some ((c + 1) / 2)]⟩, ⟨"SR_B3", [some ((1 - c) / 2)]⟩], []⟩ : Image)
          "SR_B3").pix = [some ((1 - c) / 2)] := rfl
      rw [h4, h3]
      unfold lift2 safeDiv
      rw [List.zipWith_cons_cons]
      simp only [hsum, hdiff]
      norm_num
    · have : 0 ≤ max B 0 := le_max_right B 0
      calc B ≤ max B 0 := le_max_left B 0
        _ < c := by rw [hc]; linarith
  · intro B
    obtain ⟨q, hq⟩ := exists_rat_gt (max B 0)
    refine ⟨q, 0, ?_⟩
    have hq0 : (0 : ℝ) ≤ (q : ℚ) := le_trans (le_max_right B 0) (le_of_lt hq)
    have hd : drsPixel q 0 = (q : ℝ) := by
      unfold drsPixel
      push_cast
      rw [show (q : ℝ) * q + 0 * 0 = (q : ℝ) ^ 2 by ring, Real.sqrt_sq hq0]
    rw [hd]
    exact lt_of_le_of_lt (le_max_left B 0) hq

/-- Witness for C2 at a concrete EVI input: pixel value 5/4 lies in the
clamp range. -/
theorem index_clamp_policy_witness : (-2 : ℚ) ≤ 5 / 4 ∧ (5 / 4 : ℚ) ≤ 2 :=
  index_clamp_policy.1
    ⟨[⟨"SR_B4", [some 1]⟩, ⟨"SR_B3", [some 0]⟩, ⟨"SR_B1", [some 0]⟩], []⟩
    (5 / 4)
    (by norm_num [eviBand, selectBand, clampGrid, lift1, lift3, clampQ, safeDiv,
      List.find?])

/-! ## C3 -/

/-- C3: when the forest mask selects no pixel of the interval (the land-cover
grid holds no forest-class value), the min/max reduction is undefined and the
NDRS band appended by `addNDRS` is entirely masked — no division by zero or
NaN is propagated. -/
theorem addNDRS_zero_forest_masked (image : Image) (forestTypes : List ℚ)
    (lcProduct : Date → Date → Grid)
    (hzero : ∀ o ∈ lcProduct (ndrsStartDate (imgYear image))
        (ndrsEndDate (imgYear image)), ∀ v, o = some v → v ∉ forestTypes) :
    ∃ b, (addNDRS image forestTypes lcProduct).bands = image.bands ++ [b] ∧
      b.name = "NDRS" ++ ndrsSuffix forestTypes ∧
      ∀ o ∈ b.pix, o = none := by
  unfold addNDRS addBands
  dsimp only
  refine ⟨_, rfl, rfl, ?_⟩
  intro o ho
  rw [List.mem_map] at ho
  obtain ⟨x, hx, rfl⟩ := ho
  have hmaskzero : ∀ mv ∈ remapForest forestTypes
      (lcProduct (ndrsStartDate (imgYear image)) (ndrsEndDate (imgYear image))),
      ∀ w, mv = some w → w = 0 := by
    intro mv hmv w hw
    unfold remapForest at hmv
    rw [List.mem_map] at hmv
    obtain ⟨o2, ho2, rfl⟩ := hmv
    cases o2 with
    | none => simp at hw
    | some u =>
      have hu : u ∉ forestTypes := hzero (some u) ho2 u rfl
      simp only [Option.map_some', Option.some_inj] at hw
      rw [← hw]
      simp [hu]
  have hmin : gridMin (applyMask (selectBand image "DRS").pix
      (remapForest forestTypes
        (lcProduct (ndrsStartDate (imgYear image)) (ndrsEndDate (imgYear image))))) = none :=
    gridMin_eq_none (applyMask_all_none hmaskzero)
  rw [hmin]

/-- Witness for C3: a two-pixel interval whose land-cover grid holds no
forest class yields an entirely masked NDRS band. -/
theorem addNDRS_zero_forest_masked_witness :
    ∃ b, (addNDRS ⟨[⟨"DRS", [some 1, some 2]⟩], [("year", 2020)]⟩ [210]
        (fun _ _ => [some 20, none])).bands
      = [⟨"DRS", [some 1, some 2]⟩] ++ [b] ∧
      b.name = "NDRS" ++ ndrsSuffix [210] ∧
      ∀ o ∈ b.pix, o = none :=
  addNDRS_zero_forest_masked ⟨[⟨"DRS", [some 1, some 2]⟩], [("year", 2020)]⟩
    [210] (fun _ _ => [some 20, none])
    (by
      intro o ho v hv
      simp only [List.mem_cons, List.not_mem_nil, or_false] at ho
      rcases ho with rfl | rfl
      · rw [Option.some_inj] at hv
        subst hv
        norm_num
      · simp at hv)

/-! ## C6 -/

/-- C6: the land-cover lookup inside `addNDRS` queries the classification
year `2019-01-01 … 2019-12-31` for every image year ≥ 2019 (the product's
last available year), and exactly the image's own calendar year below 2019;
the output of `addNDRS` depends on the classification only through that
queried range. -/
theorem ndrs_landcover_fallback :
    (∀ y : Int, 2019 ≤ y →
      ndrsStartDate y = ⟨2019, 1, 1⟩ ∧ ndrsEndDate y = ⟨2019, 12, 31⟩) ∧
    (∀ y : Int, y < 2019 →
      ndrsStartDate y = ⟨y, 1, 1⟩ ∧ ndrsEndDate y = ⟨y, 12, 31⟩) ∧
    (∀ (image : Image) (forestTypes : List ℚ)
        (lcP lcP2 : Date → Date → Grid),
      lcP (ndrsStartDate (imgYear image)) (ndrsEndDate (imgYear image))
        = lcP2 (ndrsStartDate (imgYear image)) (ndrsEndDate (imgYear image)) →
      addNDRS image forestTypes lcP = addNDRS image forestTypes lcP2) := by
  refine ⟨?_, ?_, ?_⟩
  · intro y hy
    constructor
    · rw [ndrsStartDate, if_pos hy]
    · rw [ndrsEndDate, if_pos hy]
  · intro y hy
    have hny : ¬ (2019 ≤ y) := by omega
    constructor
    · rw [ndrsStartDate, if_neg hny]
    · rw [ndrsEndDate, if_neg hny]
  · intro image forestTypes lcP lcP2 h
    unfold addNDRS
    dsimp only
    rw [h]

/-- Witness for C6 at concrete years 2025 (mapped to 2019) and 2010
(mapped to itself). -/
theorem ndrs_landcover_fallback_witness :
    (ndrsStartDate 2025 = ⟨2019, 1, 1⟩ ∧ ndrsEndDate 2025 = ⟨2019, 12, 31⟩) ∧
    (ndrsStartDate 2010 = ⟨2010, 1, 1⟩ ∧ ndrsEndDate 2010 = ⟨2010, 12, 31⟩) :=
  ⟨ndrs_landcover_fallback.1 2025 (by norm_num),
    ndrs_landcover_fallback.2.1 2010 (by norm_num)⟩

/-! ## C9 -/

/-- C9: `addNDVI` is pure and append-only — the returned image is the input
image with the single NDVI band appended and no other band changed, and a
second application computes a numerically identical NDVI band from the same
inputs. -/
theorem addNDVI_pure (image : Image) :
    (addNDVI image).bands = image.bands ++ [ndviBand image] ∧
    ndviBand (addNDVI image) = ndviBand image ∧
    (addNDVI (addNDVI image)).bands
      = image.bands ++ [ndviBand image] ++ [ndviBand image] ∧
    (addNDVI image).props = image.props := by
  have hstable : ndviBand (addNDVI image) = ndviBand image := by
    have h4 : selectBand (addNDVI image) "SR_B4" = selectBand image "SR_B4" :=
      selectBand_addBands_ne image (ndviBand image) "SR_B4" (by simp [ndviBand])
    have h3 : selectBand (addNDVI image) "SR_B3" = selectBand image "SR_B3" :=
      selectBand_addBands_ne image (ndviBand image) "SR_B3" (by simp [ndviBand])
    unfold ndviBand
    rw [h4, h3]
  refine ⟨rfl, hstable, ?_, rfl⟩
  show (addNDVI image).bands ++ [ndviBand (addNDVI image)]
    = image.bands ++ [ndviBand image] ++ [ndviBand image]
  rw [hstable]
  rfl

/-! ## C4 -/

/-- Pixel value of band `i` at position `p`; used to state frame
conditions of the mask functions. -/
def pixAt (image : Image) (i p : Nat) : Option (Option ℚ) :=
  (image.bands.get? i).bind (fun b => b.pix.get? p)

/-- Statement shorthand: `f` only updates the validity mask — the band-name
list is unchanged and every pixel that survives keeps its exact value. -/
def preservesValid (f : Image → Image) : Prop :=
  ∀ image : Image,
    ((f image).bands.map Band.name = image.bands.map Band.name) ∧
    ∀ i p v, pixAt (f image) i p = some (some v) → pixAt image i p = some (some v)

theorem applyMask_get? {g m : Grid} {p : Nat} {v : ℚ}
    (h : (applyMask g m).get? p = some (some v)) : g.get? p = some (some v) := by
  induction g generalizing m p with
  | nil => rw [applyMask, List.zipWith_nil_left] at h; simp at h
  | cons a g ih =>
    cases m with
    | nil => rw [applyMask, List.zipWith_nil_right] at h; simp at h
    | cons mv m =>
      rw [applyMask, List.zipWith_cons_cons] at h
      cases p with
      | zero =>
        rw [List.get?_cons_zero] at h ⊢
        rw [Option.some_inj] at h ⊢
        cases mv with
        | none => simp at h
        | some w =>
          by_cases hw : w = 0
          · simp [hw] at h
          · simpa [hw] using h
      | succ p =>
        rw [List.get?_cons_succ] at h ⊢
        exact ih h

theorem updateMask_preserves (image : Image) (m : Grid) :
    ((updateMask image m).bands.map Band.name = image.bands.map Band.name) ∧
    ∀ i p v, pixAt (updateMask image m) i p = some (some v) →
      pixAt image i p = some (some v) := by
  constructor
  · unfold updateMask
    dsimp only
    rw [List.map_map]
    rfl
  · intro i p v h
    unfold pixAt at h ⊢
    unfold updateMask at h
    dsimp only at h
    rw [List.get?_map] at h
    cases hg : image.bands.get? i with
    | none => rw [hg] at h; simp at h
    | some b =>
      rw [hg] at h
      simp only [Option.map_some', Option.some_bind] at h
      simp only [Option.some_bind]
      exact applyMask_get? h

theorem divideImage_pixAt (image : Image) (c : ℚ) (i p : Nat) (v : ℚ)
    (h : pixAt (divideImage image c) i p = some (some v)) :
    ∃ w, pixAt image i p = some (some w) ∧ v = w / c := by
  unfold pixAt at h ⊢
  unfold divideImage at h
  dsimp only at h
  rw [List.get?_map] at h
  cases hg : image.bands.get? i with
  | none => rw [hg] at h; simp at h
  | some b =>
    rw [hg] at h
    simp only [Option.map_some', Option.some_bind] at h
    rw [List.get?_map] at h
    cases hp : b.pix.get? p with
    | none => rw [hp] at h; simp at h
    | some o =>
      rw [hp] at h
      simp only [Option.map_some', Option.some_inj] at h
      cases o with
      | none => simp at h
      | some w =>
        refine ⟨w, ?_, ?_⟩
        · simp only [hg, Option.some_bind]
          exact hp
        · simp only [Option.map_some', Option.some_inj] at h
          exact h.symm

/-- C4 (amended): the Landsat cloud/cloud-shadow/snow masks, the Sentinel-2
snow mask, the land-cover mask and the forest-age mask return their input
with only the validity mask updated — band names are unchanged and every
surviving pixel keeps its value.  The Sentinel-2 cloud mask `maskS2clouds`
additionally divides every band by 10000 (its built-in scale-factor
adjustment): its surviving pixels carry the input value divided by 10000. -/
theorem masks_update_only_validity :
    preservesValid mask_cloud_snow ∧
    preservesValid mask_cloud ∧
    preservesValid maskS2snow ∧
    (∀ lc : Grid, preservesValid (maskByLandcover lc)) ∧
    (∀ age : Grid, preservesValid (maskByForestAge age)) ∧
    (∀ image : Image,
      ((maskS2clouds image).bands.map Band.name = image.bands.map Band.name) ∧
      ∀ i p v, pixAt (maskS2clouds image) i p = some (some v) →
        ∃ w, pixAt image i p = some (some w) ∧ v = w / 10000) := by
  refine ⟨?_, ?_, ?_, ?_, ?_, ?_⟩
  · intro image; exact updateMask_preserves image _
  · intro image; exact updateMask_preserves image _
  · intro image; exact updateMask_preserves image _
  · intro lc image; exact updateMask_preserves image _
  · intro age image; exact updateMask_preserves image _
  · intro image
    constructor
    · show ((divideImage (updateMask image _) 10000).bands.map Band.name
        = image.bands.map Band.name)
      unfold divideImage
      dsimp only
      rw [List.map_map]
      exact (updateMask_preserves image _).1
    · intro i p v h
      obtain ⟨w, hw, hv⟩ := divideImage_pixAt (updateMask image _) 10000 i p v h
      exact ⟨w, (updateMask_preserves image _).2 i p w hw, hv⟩

/-- Witness for C4: a clear-sky Landsat pixel surviving `mask_cloud_snow`
keeps its exact value. -/
theorem masks_update_only_validity_witness :
    pixAt ⟨[⟨"QA_PIXEL", [some 0]⟩, ⟨"SR_B1", [some 5]⟩], []⟩ 1 0
      = some (some 5) :=
  (masks_update_only_validity.1
      ⟨[⟨"QA_PIXEL", [some 0]⟩, ⟨"SR_B1", [some 5]⟩], []⟩).2 1 0 5
    (by norm_num [mask_cloud_snow, updateMask, applyMask, pixAt, selectBand,
      List.find?, qaBits])

/-- Counterexample to C4 as stated: `maskS2clouds` rescales the pixels that
survive the mask — a clear pixel with raw value 10000 comes back as 1, not
10000. -/
theorem maskS2clouds_rescales_counterexample :
    pixAt (maskS2clouds ⟨[⟨"QA60", [some 0]⟩, ⟨"B2", [some 10000]⟩], []⟩) 1 0
      = some (some 1) ∧
    pixAt ⟨[⟨"QA60", [some 0]⟩, ⟨"B2", [some 10000]⟩], []⟩ 1 0
      = some (some 10000) ∧
    (1 : ℚ) ≠ 10000 := by
  refine ⟨?_, ?_, by norm_num⟩
  · norm_num [maskS2clouds, updateMask, divideImage, applyMask, pixAt,
      selectBand, List.find?, qaBits]
  · norm_num [pixAt]

/-! ## C10 -/

theorem find?_map_filter_nodup (l : List Band) (P : Band → Bool) (F : Band → Band)
    (hF : ∀ x, (F x).name = x.name)
    (hnd : (l.map Band.name).Nodup) {b : Band} (hb : b ∈ l) :
    ((l.filter P).map F).find? (fun nb => nb.name == b.name)
      = if P b then some (F b) else none := by
  induction l with
  | nil => cases hb
  | cons a t ih =>
    rw [List.map_cons, List.nodup_cons] at hnd
    obtain ⟨ha, hnd⟩ := hnd
    rcases List.mem_cons.mp hb with rfl | hbt
    · by_cases hPb : P b
      · rw [List.filter_cons_of_pos hPb, List.map_cons,
          List.find?_cons_of_pos (p := fun nb : Band => nb.name == b.name) _
            (by show ((F b).name == b.name) = true
                rw [hF]; exact beq_self_eq_true _),
          if_pos hPb]
      · rw [List.filter_cons_of_neg hPb, if_neg hPb, List.find?_eq_none]
        intro x hx
        rw [List.mem_map] at hx
        obtain ⟨y, hy, rfl⟩ := hx
        have hyt : y ∈ t := List.mem_of_mem_filter hy
        have hne : y.name ≠ b.name := by
          intro hEq
          exact ha (hEq ▸ List.mem_map_of_mem Band.name hyt)
        simp [hF, hne]
    · have hbn : b.name ∈ t.map Band.name := List.mem_map_of_mem Band.name hbt
      have hne : a.name ≠ b.name := fun hEq => ha (hEq ▸ hbn)
      by_cases hPa : P a
      · rw [List.filter_cons_of_pos hPa, List.map_cons,
          List.find?_cons_of_neg (p := fun nb : Band => nb.name == b.name) _
            (by simp [hF, hne])]
        exact ih hnd hbt
      · rw [List.filter_cons_of_neg hPa]
        exact ih hnd hbt

theorem overwrite_filter_nil (l : List Band) (P : Band → Bool) (F : Band → Band)
    (hF : ∀ x, (F x).name = x.name) :
    ((l.filter P).map F).filter
      (fun nb => (l.find? (fun b => b.name == nb.name)).isNone) = [] := by
  rw [List.filter_eq_nil]
  intro nb hnb
  rw [List.mem_map] at hnb
  obtain ⟨y, hy, rfl⟩ := hnb
  have hy2 : y ∈ l := List.mem_of_mem_filter hy
  have hs : (l.find? (fun b => b.name == (F y).name)).isSome := by
    rw [List.find?_isSome]
    exact ⟨y, hy2, by rw [hF]; exact beq_self_eq_true _⟩
  intro hN
  rw [Option.isNone_iff_eq_none] at hN
  rw [hN] at hs
  simp at hs

theorem find?_name_nodup {l : List Band} (hnd : (l.map Band.name).Nodup)
    {b : Band} (hb : b ∈ l) :
    l.find? (fun x => x.name == b.name) = some b := by
  induction l with
  | nil => cases hb
  | cons a t ih =>
    rw [List.map_cons, List.nodup_cons] at hnd
    obtain ⟨ha, hnd⟩ := hnd
    rcases List.mem_cons.mp hb with rfl | hbt
    · rw [List.find?_cons_of_pos (p := fun x : Band => x.name == b.name) _
        (beq_self_eq_true _)]
    · have hne : a.name ≠ b.name :=
        fun hEq => ha (hEq ▸ List.mem_map_of_mem Band.name hbt)
      rw [List.find?_cons_of_neg (p := fun x : Band => x.name == b.name) _
        (by simpa using hne)]
      exact ih hnd hbt

theorem matchesSRB_ne_STB6 {n : String} (h : matchesSRB n = true) :
    n ≠ "ST_B6" := by
  intro hEq
  subst hEq
  exact absurd h (by decide)

/-- C10: `applyScaleFactors` replaces each surface-reflectance band whose
name matches `SR_B.` by `v * 0.0000275 - 0.2`, replaces the thermal band
`ST_B6` by `v * 0.00341802 + 149.0`, and leaves every other band — in
particular the `QA_PIXEL` bit-flag band — untouched, so masks applied after
scaling still read the raw QA bits. -/
theorem applyScaleFactors_spec (image : Image)
    (hnd : (image.bands.map Band.name).Nodup)
    (hst : ∃ b0 ∈ image.bands, b0.name = "ST_B6") :
    (applyScaleFactors image).bands
      = image.bands.map (fun b =>
          if matchesSRB b.name then scaleOptical b
          else if b.name = "ST_B6" then scaleThermal b
          else b) := by
  obtain ⟨b0, hb0, hb0name⟩ := hst
  set P : Band → Bool := fun b => matchesSRB b.name with hP
  have hFopt : ∀ x : Band, (scaleOptical x).name = x.name := fun x => rfl
  have hsel : selectBand image "ST_B6" = b0 := by
    unfold selectBand
    have := find?_name_nodup hnd hb0
    rw [hb0name] at this
    rw [this]
    rfl
  -- First overwrite: the optical bands are rescaled in place.
  have step1 : (addBandsOverwrite image
      ((image.bands.filter P).map scaleOptical)).bands
      = image.bands.map (fun b => if P b then scaleOptical b else b) := by
    unfold addBandsOverwrite
    dsimp only
    rw [overwrite_filter_nil image.bands P scaleOptical hFopt, List.append_nil]
    apply List.map_congr_left
    intro b hb
    rw [find?_map_filter_nodup image.bands P scaleOptical hFopt hnd hb]
    by_cases hPb : P b
    · rw [if_pos hPb, if_pos hPb, Option.getD_some]
    · rw [if_neg hPb, if_neg hPb, Option.getD_none]
  set image1 : Image :=
    ⟨image.bands.map (fun b => if P b then scaleOptical b else b), image.props⟩
    with himage1
  have hbands1 : (addBandsOverwrite image
      ((image.bands.filter P).map scaleOptical)) = image1 := by
    unfold addBandsOverwrite at step1 ⊢
    dsimp only at step1 ⊢
    rw [himage1]
    exact congrArg (fun bs => Image.mk bs image.props) step1
  have hg1name : ∀ b : Band,
      (if P b then scaleOptical b else b).name = b.name := by
    intro b
    by_cases hPb : P b
    · rw [if_pos hPb]; exact hFopt b
    · rw [if_neg hPb]
  have hnames1 : image1.bands.map Band.name = image.bands.map Band.name := by
    rw [himage1]
    dsimp only
    rw [List.map_map]
    exact List.map_congr_left (fun b _ => hg1name b)
  set thermal : Band := scaleThermal (selectBand image "ST_B6") with hth
  have hthname : thermal.name = "ST_B6" := by
    rw [hth, hsel]
    exact hb0name
  -- Second overwrite: the thermal band is rescaled in place.
  have hstep2 : (applyScaleFactors image).bands
      = image1.bands.map
          (fun b => if thermal.name == b.name then thermal else b) := by
    show (addBandsOverwrite (addBandsOverwrite image
        ((image.bands.filter P).map scaleOptical)) [thermal]).bands
      = _
    rw [hbands1]
    unfold addBandsOverwrite
    dsimp only
    have hfilterone : ([thermal].filter
        (fun nb => (image1.bands.find? (fun b => b.name == nb.name)).isNone))
        = [] := by
      rw [List.filter_eq_nil]
      intro nb hnb
      rw [List.mem_singleton] at hnb
      subst hnb
      have hmem1 : (if P b0 then scaleOptical b0 else b0) ∈ image1.bands := by
        rw [himage1]
        exact List.mem_map_of_mem _ hb0
      have hs : (image1.bands.find?
          (fun b => b.name == thermal.name)).isSome := by
        rw [List.find?_isSome]
        refine ⟨_, hmem1, ?_⟩
        rw [hg1name b0, hb0name, hthname]
        exact beq_self_eq_true _
      intro hN
      rw [Option.isNone_iff_eq_none] at hN
      rw [hN] at hs
      simp at hs
    rw [hfilterone, List.append_nil]
    apply List.map_congr_left
    intro b hb
    by_cases hbth : thermal.name == b.name
    · rw [if_pos hbth,
        List.find?_cons_of_pos (p := fun nb : Band => nb.name == b.name) _ hbth,
        Option.getD_some]
    · rw [if_neg hbth,
        List.find?_cons_of_neg (p := fun nb : Band => nb.name == b.name) _
          (by simpa using hbth),
        List.find?_nil, Option.getD_none]
  rw [hstep2, himage1]
  dsimp only
  rw [List.map_map]
  apply List.map_congr_left
  intro b hb
  by_cases hPb : P b
  · have hbne : b.name ≠ "ST_B6" := matchesSRB_ne_STB6 hPb
    have : (thermal.name == (if P b then scaleOptical b else b).name) = false := by
      rw [hg1name b, hthname]
      exact beq_eq_false_iff_ne.mpr (fun hEq => hbne hEq.symm)
    show (if thermal.name == (if P b then scaleOptical b else b).name
        then thermal else (if P b then scaleOptical b else b))
      = if P b then scaleOptical b else if b.name = "ST_B6" then scaleThermal b else b
    rw [this, if_pos hPb, if_pos hPb]
    simp
  · by_cases hbst : b.name = "ST_B6"
    · have hbeq : b = b0 := by
        have h1 := find?_name_nodup hnd hb
        have h2 := find?_name_nodup hnd hb0
        rw [hbst] at h1
        rw [hb0name] at h2
        rw [h1] at h2
        exact Option.some_inj.mp h2
      have : (thermal.name == (if P b then scaleOptical b else b).name) = true := by
        rw [hg1name b, hthname, hbst]
        exact beq_self_eq_true _
      show (if thermal.name == (if P b then scaleOptical b else b).name
          then thermal else (if P b then scaleOptical b else b))
        = if P b then scaleOptical b else if b.name = "ST_B6" then scaleThermal b else b
      rw [this, if_pos rfl, if_neg hPb, if_pos hbst, hth, hsel, hbeq]
    · have : (thermal.name == (if P b then scaleOptical b else b).name) = false := by
        rw [hg1name b, hthname]
        exact beq_eq_false_iff_ne.mpr (fun hEq => hbst hEq.symm)
      show (if thermal.name == (if P b then scaleOptical b else b).name
          then thermal else (if P b then scaleOptical b else b))
        = if P b then scaleOptical b else if b.name = "ST_B6" then scaleThermal b else b
      rw [this, if_neg hPb, if_neg hPb, if_neg hbst]
      simp

/-- Witness for C10 at a three-band Landsat image (one optical band, the
thermal band, and the QA band). -/
theorem applyScaleFactors_spec_witness :
    (((⟨[⟨"SR_B1", [some 100]⟩, ⟨"ST_B6", [some 1000]⟩,
        ⟨"QA_PIXEL", [some 5]⟩], []⟩ : Image).bands.map Band.name).Nodup) ∧
    (applyScaleFactors ⟨[⟨"SR_B1", [some 100]⟩, ⟨"ST_B6", [some 1000]⟩,
        ⟨"QA_PIXEL", [some 5]⟩], []⟩).bands
      = (⟨[⟨"SR_B1", [some 100]⟩, ⟨"ST_B6", [some 1000]⟩,
          ⟨"QA_PIXEL", [some 5]⟩], []⟩ : Image).bands.map (fun b =>
          if matchesSRB b.name then scaleOptical b
          else if b.name = "ST_B6" then scaleThermal b
          else b) :=
  ⟨by decide,
    applyScaleFactors_spec
      ⟨[⟨"SR_B1", [some 100]⟩, ⟨"ST_B6", [some 1000]⟩,
        ⟨"QA_PIXEL", [some 5]⟩], []⟩
      (by decide)
      ⟨⟨"ST_B6", [some 1000]⟩,
        List.mem_cons_of_mem _ (List.mem_cons_self _ _), rfl⟩⟩

/-! ## C7 -/

theorem wcMatch_of_tokenHere {cs t : List Char} (h : tokenHere cs = some t) :
    wcMatch ('_' :: (t ++ ['-'])) cs = true := by
  cases cs with
  | nil => simp [tokenHere] at h
  | cons u cs1 =>
  cases cs1 with
  | nil => simp [tokenHere] at h
  | cons a cs2 =>
  cases cs2 with
  | nil => simp [tokenHere] at h
  | cons b cs3 =>
  cases cs3 with
  | nil => simp [tokenHere] at h
  | cons c cs4 =>
  cases cs4 with
  | nil => simp [tokenHere] at h
  | cons d cs5 =>
  cases cs5 with
  | nil => simp [tokenHere] at h
  | cons e rest =>
  rw [tokenHere] at h
  split at h
  · rename_i hcond
    obtain ⟨hu, -, -, -, -, he⟩ := hcond
    rw [Option.some_inj] at h
    subst h hu he
    simp [wcMatch]
  · exact absurd h (by simp)

theorem wcContains_of_drop {p cs : List Char} (i : Nat)
    (h : wcMatch p (cs.drop i) = true) : wcContains p cs = true := by
  induction cs generalizing i with
  | nil =>
    rw [List.drop_nil] at h
    simpa [wcContains] using h
  | cons a t ih =>
    cases i with
    | zero =>
      rw [List.drop_zero] at h
      simp [wcContains, h]
    | succ i =>
      rw [List.drop_succ_cons] at h
      simp [wcContains, ih i h]

theorem foldl_token_some {cs t : List Char} :
    ∀ (is : List Nat) (acc : Option (List Char)),
      List.foldl (fun acc i =>
        match tokenHere (cs.drop i) with
        | some t2 => some t2
        | none => acc) acc is = some t →
      acc = some t ∨ ∃ i ∈ is, tokenHere (cs.drop i) = some t := by
  intro is
  induction is with
  | nil => intro acc h; exact Or.inl h
  | cons j js ih =>
    intro acc h
    rw [List.foldl_cons] at h
    rcases ih _ h with hacc | ⟨i, hi, hti⟩
    · cases htj : tokenHere (cs.drop j) with
      | some t2 =>
        rw [htj] at hacc
        rw [Option.some_inj] at hacc
        exact Or.inr ⟨j, List.mem_cons_self _ _, by rw [htj, hacc]⟩
      | none =>
        rw [htj] at hacc
        exact Or.inl hacc
    · exact Or.inr ⟨i, List.mem_cons_of_mem _ hi, hti⟩

theorem lastYearToken_some {cs t : List Char} (h : lastYearToken cs = some t) :
    ∃ i, tokenHere (cs.drop i) = some t := by
  unfold lastYearToken at h
  rcases foldl_token_some _ _ h with hacc | ⟨i, _, hti⟩
  · exact absurd hacc (by simp)
  · exact ⟨i, hti⟩

theorem uniqueAux_subset {x : List Char} :
    ∀ (seen l : List (List Char)), x ∈ uniqueAux seen l → x ∈ l := by
  intro seen l
  induction l generalizing seen with
  | nil => intro h; simp [uniqueAux] at h
  | cons k rest ih =>
    intro h
    rw [uniqueAux] at h
    split at h
    · exact List.mem_cons_of_mem _ (ih _ h)
    · rcases List.mem_cons.mp h with rfl | h2
      · exact List.mem_cons_self _ _
      · exact List.mem_cons_of_mem _ (ih _ h2)

theorem filterMap_eq_map_of_some {α β : Type} (F : α → Option β) (G : α → β)
    (l : List α) (h : ∀ a ∈ l, F a = some (G a)) :
    l.filterMap F = l.map G := by
  induction l with
  | nil => rfl
  | cons a t ih =>
    rw [List.filterMap_cons, h a (List.mem_cons_self _ _), List.map_cons,
      ih (fun x hx => h x (List.mem_cons_of_mem _ hx))]

/-- C7 (amended): mosaic-by-year grouping keys each filename by its last
`_YYYY-` token, falling back to the whole filename when no token matches.
For file lists in which every filename carries a year token, exactly one
mosaic is produced per distinct extracted token, its group holding exactly
the files whose names contain `_YYYY-` for that token; and the three-file
scenario produces exactly the mosaics `mosaic_2019.tif` (from the two 2019
files) and `mosaic_2020.tif` (from the 2020 file).  (Files without a year
token are keyed by their whole name and may produce a spurious extra group,
as the counterexample shows, so they are not silently excluded from every
group.) -/
theorem mosaic_by_year_amended :
    (∀ (files : List String) (pre : String),
      (∀ f ∈ files, (lastYearToken f.toList).isSome) →
      mosaicsProduced files pre
        = (yearKeysOf files).map
            (fun y => (pre ++ String.mk y ++ ".tif", yearGroup files y))) ∧
    mosaicsProduced ["a_2019-06.tif", "b_2019-07.tif", "c_2020-01.tif"]
        "mosaic_"
      = [("mosaic_2019.tif", ["a_2019-06.tif", "b_2019-07.tif"]),
         ("mosaic_2020.tif", ["c_2020-01.tif"])] := by
  constructor
  · intro files pre hall
    unfold mosaicsProduced
    apply filterMap_eq_map_of_some
    intro y hy
    have hy2 : y ∈ files.map extractYearKey := uniqueAux_subset _ _ hy
    rw [List.mem_map] at hy2
    obtain ⟨f, hf, hkey⟩ := hy2
    have hsome := hall f hf
    rw [Option.isSome_iff_exists] at hsome
    obtain ⟨t, ht⟩ := hsome
    have hyt : y = t := by
      rw [← hkey]
      unfold extractYearKey
      rw [ht]
    subst hyt
    obtain ⟨i, hi⟩ := lastYearToken_some ht
    have hwc : wcContains ('_' :: (y ++ ['-'])) f.toList = true :=
      wcContains_of_drop i (wcMatch_of_tokenHere hi)
    have hfg : f ∈ yearGroup files y := by
      unfold yearGroup
      rw [List.mem_filter]
      exact ⟨hf, hwc⟩
    have hne : ¬ ((yearGroup files y).isEmpty = true) := by
      intro hEmpty
      rw [List.isEmpty_iff] at hEmpty
      rw [hEmpty] at hfg
      cases hfg
    dsimp only
    rw [if_neg hne]
  · rfl

/-- Counterexample to C7 as stated: neither `ab.tif` nor `x_abctif-2.tif`
carries a `_YYYY-` year token, so the claim predicts no year group at all;
the code nevertheless produces one mosaic, keyed by the whole unmatched
filename `ab.tif` (whose `.` acts as a regex wildcard), with the other
non-matching file as its input — a non-matching file is not excluded from
every group. -/
theorem mosaic_by_year_counterexample :
    lastYearToken ("ab.tif".toList) = none ∧
    lastYearToken ("x_abctif-2.tif".toList) = none ∧
    mosaicsProduced ["ab.tif", "x_abctif-2.tif"] "mosaic_"
      = [("mosaic_ab.tif.tif", ["x_abctif-2.tif"])] :=
  ⟨rfl, rfl, rfl⟩

/-- Witness for C7 at the scenario file list, every name carrying a year
token. -/
theorem mosaic_by_year_amended_witness :
    mosaicsProduced ["a_2019-06.tif", "b_2019-07.tif", "c_2020-01.tif"]
        "mosaic_"
      = (yearKeysOf ["a_2019-06.tif", "b_2019-07.tif", "c_2020-01.tif"]).map
          (fun y => ("mosaic_" ++ String.mk y ++ ".tif",
            yearGroup ["a_2019-06.tif", "b_2019-07.tif", "c_2020-01.tif"] y)) :=
  mosaic_by_year_amended.1 ["a_2019-06.tif", "b_2019-07.tif", "c_2020-01.tif"]
    "mosaic_" (by decide)

/-! ## C8 -/

/-- C8: mosaicking an empty file list (or a directory with no `.tif` file)
fails with a clear error before any raster is read or written — the error
result carries no raster-library action at all; a non-empty list proceeds,
reading every tile and writing the mosaic. -/
theorem mosaic_empty_input_fails :
    (∀ out, mosaic_rasters_in_list [] out
      = Except.error "No raster files provided for mosaicking.") ∧
    (∀ entries out, tifOnly entries = [] →
      mosaic_rasters entries out
        = Except.error "No .tif files found in the specified directory.") ∧
    (∀ files out, files ≠ [] →
      mosaic_rasters_in_list files out
        = Except.ok (files.map RAction.readRaster ++
            [RAction.writeRaster out]) ∧
      RAction.writeRaster out
        ∈ files.map RAction.readRaster ++ [RAction.writeRaster out]) := by
  refine ⟨?_, ?_, ?_⟩
  · intro out; rfl
  · intro entries out h
    unfold mosaic_rasters
    dsimp only
    rw [h]
    rfl
  · intro files out h
    constructor
    · unfold mosaic_rasters_in_list
      rw [if_neg (by simpa [List.isEmpty_iff] using h)]
    · exact List.mem_append_right _ (List.mem_singleton.mpr rfl)

/-- Witness for C8 at a one-file input: the call proceeds and writes the
output. -/
theorem mosaic_empty_input_fails_witness :
    (["a.tif"] : List String) ≠ [] ∧
    (mosaic_rasters_in_list ["a.tif"] "out.tif"
        = Except.ok ((["a.tif"] : List String).map RAction.readRaster ++
            [RAction.writeRaster "out.tif"]) ∧
      RAction.writeRaster "out.tif"
        ∈ (["a.tif"] : List String).map RAction.readRaster ++
            [RAction.writeRaster "out.tif"]) :=
  ⟨by decide, mosaic_empty_input_fails.2.2 ["a.tif"] "out.tif" (by decide)⟩

end GeoToolkit
